import Mathlib

/-!
Shallow embedding of src/python/IECoreMaya/ClassVectorParameterUI.py.

The widget maintains a registry of child UIs (python: self.__childUIs, a dict
from parameter name to ChildUI widget), synchronized against an ordered list
of class entries.  A class entry is the tuple c[1:] of
parameter.getClasses(True), i.e. (parameterName, className, classVersion).

Modelling choices:
  * The childUIs dict is an association list in insertion order; dict update
    replaces the value in place, dict insertion appends.
  * A ChildUI widget is identified by a numeric id (fresh ids come from a
    counter in the state), together with the __className / __classVersion
    attributes that __updateChildUIs stores on it.
  * Observable actions (maya.cmds.deleteUI, ChildUI construction, the call of
    __updateChildUIs itself, and fnPH.setClassVectorParameterClasses) are
    recorded in an event trace, in program order.
  * A raised RuntimeError is modelled by the `error` field of the result;
    layout bookkeeping (formLayout attachment lists) has no observable state
    for the claims and is not modelled.
-/

/-- One child widget: its identity plus the `__className` / `__classVersion`
attributes that `__updateChildUIs` stores on it. -/
structure ChildUI where
  id : Nat
  className : String
  classVersion : Nat
deriving DecidableEq, Repr

/-- A class entry (parameterName, className, classVersion), i.e. the
projection c[1:] of an element of parameter.getClasses(True). -/
abbrev ClassEntry := String × String × Nat

/-- The parameter name of a class entry (c[0] after projection). -/
abbrev ClassEntry.parameterName (c : ClassEntry) : String := c.1

/-- The widget-side state of a ClassVectorParameterUI: the childUIs registry
(python dict, modelled as an association list) and the fresh-id counter used
when constructing new ChildUI widgets. -/
structure UIState where
  childUIs : List (String × ChildUI)
  nextId : Nat
deriving DecidableEq, Repr

/-- Observable actions, in program order. -/
inductive UIEvent where
  | updateUI (classes : List ClassEntry)
  | deleteUI (parameterName : String) (id : Nat)
  | createUI (parameterName : String) (id : Nat)
  | commit (classes : List ClassEntry)
deriving DecidableEq, Repr

/-- Dict lookup self.__childUIs.get(parameterName, None). -/
def lookupUI : List (String × ChildUI) → String → Option ChildUI
  | [], _ => none
  | p :: rest, k => if p.1 = k then some p.2 else lookupUI rest k

/-- Dict assignment self.__childUIs[parameterName] = childUI: replace in
place when the key is present, append otherwise. -/
def setUI (l : List (String × ChildUI)) (k : String) (v : ChildUI) : List (String × ChildUI) :=
  if (lookupUI l k).isSome then
    l.map (fun p => if p.1 = k then (k, v) else p)
  else
    l ++ [(k, v)]

/-- One iteration of the second loop of `__updateChildUIs` (lines 236-253):
fetch the existing child UI for classes[i], delete it if its class identity
changed, and build a fresh `ChildUI` when none remains. -/
def updateChildUIsStep (st : UIState) (c : ClassEntry) : UIState × List UIEvent :=
  match lookupUI st.childUIs c.1 with
  | some childUI =>
      if childUI.className ≠ c.2.1 ∨ childUI.classVersion ≠ c.2.2 then
        (⟨setUI st.childUIs c.1 ⟨st.nextId, c.2.1, c.2.2⟩, st.nextId + 1⟩,
          [UIEvent.deleteUI c.1 childUI.id, UIEvent.createUI c.1 st.nextId])
      else
        (st, [])
  | none =>
      (⟨setUI st.childUIs c.1 ⟨st.nextId, c.2.1, c.2.2⟩, st.nextId + 1⟩,
        [UIEvent.createUI c.1 st.nextId])

/-- The second loop of `__updateChildUIs`, iterating over `classes` in
order. -/
def updateChildUIsLoop : UIState → List ClassEntry → UIState × List UIEvent
  | st, [] => (st, [])
  | st, c :: rest =>
      let p := updateChildUIsStep st c
      let q := updateChildUIsLoop p.1 rest
      (q.1, p.2 ++ q.2)

/-- Which registry entries survive the first loop of `__updateChildUIs`
(lines 221-225): an entry is deleted when its name is not among the entry
names, or startFromScratch is set. -/
def keepChild (parameterNamesSet : List String) (startFromScratch : Bool)
    (p : String × ChildUI) : Bool :=
  decide (p.1 ∈ parameterNamesSet) && !startFromScratch

/-- `__updateChildUIs(classes, startFromScratch)` (lines 214-280), with the
class-entry list already resolved (the python default classes=None reads the
current list at the call site).  First loop: delete the UIs of parameters
that disappeared; second loop: create or reuse a UI per entry. -/
def updateChildUIs (classes : List ClassEntry) (startFromScratch : Bool)
    (st : UIState) : UIState × List UIEvent :=
  let parameterNamesSet := classes.map ClassEntry.parameterName
  let deletedEvents :=
    (st.childUIs.filter (fun p => !(keepChild parameterNamesSet startFromScratch p))).map
      (fun p => UIEvent.deleteUI p.1 p.2.id)
  let kept := st.childUIs.filter (keepChild parameterNamesSet startFromScratch)
  let p := updateChildUIsLoop ⟨kept, st.nextId⟩ classes
  (p.1, UIEvent.updateUI classes :: (deletedEvents ++ p.2))

/-- The outcome of a mutation method: the widget state it leaves behind, the
events it performed, and the RuntimeError it raised, if any. -/
structure MutationResult where
  state : UIState
  events : List UIEvent
  error : Option String
deriving DecidableEq, Repr

/-- `_removeClass(parameterName)` (lines 162-172): filter the entry out of
the current class list, pre-update the child UIs to that target list, then
commit it through fnPH.setClassVectorParameterClasses. -/
def removeClass (parameterName : String) (currentClasses : List ClassEntry)
    (st : UIState) : MutationResult :=
  let classes := currentClasses.filter (fun c => decide (c.1 ≠ parameterName))
  let p := updateChildUIs classes false st
  ⟨p.1, p.2 ++ [UIEvent.commit classes], none⟩

/-- Decimal rendering of a natural number, as python "%d" produces it. -/
def decimalRepr (n : Nat) : String :=
  if n = 0 then "0" else ((Nat.digits 10 n).reverse.map Nat.digitChar).asString

/-- The candidate parameter name "p%d" % i. -/
def pName (i : Nat) : String := "p" ++ decimalRepr i

/-- The name-generation loop of `_setClass` (lines 195-199): the first
i in range(0, len(classes)+1) with "p%d" % i unused; when the loop never
breaks, python leaves the last candidate in the variable. -/
def genParameterName (parameterNames : List String) (n : Nat) : String :=
  match (List.range (n + 1)).find? (fun i => decide (pName i ∉ parameterNames)) with
  | some i => pName i
  | none => pName n

/-- `_setClass(parameterName, className, classVersion)` (lines 174-203):
pre-update the child UIs to the current list minus this entry, then either
replace the named entry (RuntimeError when the name is absent) or append a
new entry under a generated name, and commit.  python passes None for
parameterName when adding; None and "" are both falsy and are modelled
as "". -/
def setClass (parameterName className : String) (classVersion : Nat)
    (currentClasses : List ClassEntry) (st : UIState) : MutationResult :=
  let classesWithoutThis := currentClasses.filter (fun c => decide (c.1 ≠ parameterName))
  let p := updateChildUIs classesWithoutThis false st
  let classes := currentClasses
  if parameterName ≠ "" then
    match classes.findIdx? (fun c => decide (c.1 = parameterName)) with
    | none =>
        ⟨p.1, p.2, some ("Parameter \"" ++ parameterName ++ "\" not present")⟩
    | some i =>
        ⟨p.1, p.2 ++ [UIEvent.commit (classes.set i (parameterName, className, classVersion))],
          none⟩
  else
    let newName := genParameterName (classes.map ClassEntry.parameterName) classes.length
    ⟨p.1, p.2 ++ [UIEvent.commit (classes ++ [(newName, className, classVersion)])], none⟩

/-- `ChildUI.__moveLayer(oldIndex, newIndex)` (lines 532-540): returns the
class list committed through fnPH.setClassVectorParameterClasses.  none
models the IndexError python raises when oldIndex is out of range;
`classes[newIndex:newIndex] = [cl]` is slice assignment, which clamps
newIndex to the list length. -/
def moveLayer (oldIndex newIndex : Nat) (currentClasses : List ClassEntry) :
    Option (List ClassEntry) :=
  match currentClasses.get? oldIndex with
  | none => none
  | some cl =>
      let classes := currentClasses.eraseIdx oldIndex
      some (classes.take newIndex ++ [cl] ++ classes.drop newIndex)

/-- `ChildUI.__attributeChanged` (lines 721-737): parameters and plugs are
identified by numbers; `parameterPlug` models fnPH.parameterPlug, returning
none when the lookup raises (the widget is mid-teardown); the bare except
skips such parameters with continue.  The result is the list of indices for
which __updatePresetLabel runs. -/
def attributeChanged (changeTypeIsAttributeSet : Bool) (presetParameters : List Nat)
    (parameterPlug : Nat → Option Nat) (plug : Nat) : List Nat :=
  if !changeTypeIsAttributeSet then []
  else
    presetParameters.enum.filterMap (fun ip =>
      match parameterPlug ip.2 with
      | none => none
      | some myPlug => if plug = myPlug then some ip.1 else none)

/-- Constructor lines 73-75: collapsable defaults to True when the
userData lookup ["UI"]["collapsable"] raises KeyError (modelled as none). -/
def initCollapsable (userDataCollapsable : Option Bool) : Bool :=
  userDataCollapsable.getD true

/-- `__classMenuDefinition` lines 129-133: classNameFilter defaults to "*"
when the userData lookup ["UI"]["classNameFilter"] raises (modelled as
none). -/
def classMenuNameFilter (userDataClassNameFilter : Option String) : String :=
  userDataClassNameFilter.getD "*"

/-- `__drawHeaderParameterControls` lines 588-590: the per-parameter header
flag defaults to False when the userData lookup ["UI"][uiKey] raises
KeyError (modelled as none). -/
def headerParameterFlag (userDataFlag : Option Bool) : Bool :=
  userDataFlag.getD false

example : decimalRepr 0 = "0" := by rfl
example : pName 3 = "p3" := by
  simp [pName, decimalRepr]
  rfl

/-! ### Lemmas about the registry association list -/

theorem lookupUI_isSome_iff (l : List (String × ChildUI)) (k : String) :
    (lookupUI l k).isSome ↔ k ∈ l.map Prod.fst := by
  induction l with
  | nil => simp [lookupUI]
  | cons p rest ih =>
      by_cases h : p.1 = k
      · simp [lookupUI, h]
      · simp only [lookupUI, if_neg h, List.map_cons, List.mem_cons, ih]
        constructor
        · exact Or.inr
        · rintro (rfl | hm)
          · exact absurd rfl h
          · exact hm

theorem lookupUI_mem (l : List (String × ChildUI)) (k : String) (v : ChildUI)
    (h : lookupUI l k = some v) : (k, v) ∈ l := by
  induction l with
  | nil => simp [lookupUI] at h
  | cons p rest ih =>
      by_cases hp : p.1 = k
      · simp only [lookupUI, if_pos hp, Option.some.injEq] at h
        subst hp; subst h
        exact List.mem_cons_self _ _
      · simp only [lookupUI, if_neg hp] at h
        exact List.mem_cons_of_mem _ (ih h)

theorem lookupUI_append (l₁ l₂ : List (String × ChildUI)) (k : String) :
    lookupUI (l₁ ++ l₂) k = (lookupUI l₁ k).or (lookupUI l₂ k) := by
  induction l₁ with
  | nil => simp [lookupUI]
  | cons p rest ih =>
      by_cases hp : p.1 = k
      · simp [lookupUI, hp]
      · simp [lookupUI, hp, ih]

theorem lookupUI_map_set_self (l : List (String × ChildUI)) (k : String) (v : ChildUI)
    (h : (lookupUI l k).isSome) :
    lookupUI (l.map fun p => if p.1 = k then (k, v) else p) k = some v := by
  induction l with
  | nil => simp [lookupUI] at h
  | cons p rest ih =>
      by_cases hp : p.1 = k
      · simp [lookupUI, hp]
      · simp only [lookupUI, if_neg hp] at h
        simp only [List.map_cons, if_neg hp, lookupUI, if_neg hp]
        exact ih h

theorem lookupUI_map_set_ne (l : List (String × ChildUI)) (k : String) (v : ChildUI)
    (k' : String) (h : k' ≠ k) :
    lookupUI (l.map fun p => if p.1 = k then (k, v) else p) k' = lookupUI l k' := by
  induction l with
  | nil => simp [lookupUI]
  | cons p rest ih =>
      by_cases hp : p.1 = k
      · have hk : ¬ k = k' := by
          intro hc
          exact h hc.symm
        have hp' : ¬ p.1 = k' := by
          rw [hp]
          exact hk
        simp only [List.map_cons, if_pos hp, lookupUI, if_neg hk, if_neg hp']
        exact ih
      · simp only [List.map_cons, if_neg hp, lookupUI]
        by_cases hp2 : p.1 = k'
        · simp [hp2]
        · simp only [if_neg hp2]
          exact ih

theorem lookupUI_setUI_self (l : List (String × ChildUI)) (k : String) (v : ChildUI) :
    lookupUI (setUI l k v) k = some v := by
  unfold setUI
  by_cases h : (lookupUI l k).isSome
  · simp only [if_pos h]
    exact lookupUI_map_set_self l k v h
  · simp only [if_neg h, lookupUI_append]
    rw [Option.not_isSome_iff_eq_none] at h
    simp [h, lookupUI]

theorem lookupUI_setUI_ne (l : List (String × ChildUI)) (k : String) (v : ChildUI)
    (k' : String) (h : k' ≠ k) : lookupUI (setUI l k v) k' = lookupUI l k' := by
  unfold setUI
  by_cases hs : (lookupUI l k).isSome
  · simp only [if_pos hs]
    exact lookupUI_map_set_ne l k v k' h
  · simp only [if_neg hs]
    rw [lookupUI_append]
    have hone : lookupUI [(k, v)] k' = none := by
      have hk : ¬ k = k' := by
        intro hc
        exact h hc.symm
      simp [lookupUI, hk]
    simp [hone]

theorem lookupUI_filter_key (f : String → Bool) (l : List (String × ChildUI)) (k : String) :
    lookupUI (l.filter fun p => f p.1) k = if f k then lookupUI l k else none := by
  induction l with
  | nil => simp [lookupUI]
  | cons p rest ih =>
      by_cases hp : p.1 = k
      · by_cases hf : f k
        · simp [List.filter_cons, hp, hf, lookupUI]
        · simp only [List.filter_cons, hp, hf]
          simp only [if_neg hf] at ih ⊢
          simpa using ih
      · by_cases hf2 : f p.1
        · simp only [List.filter_cons, if_pos hf2, lookupUI, if_neg hp]
          exact ih
        · simp only [List.filter_cons, if_neg hf2]
          rw [ih]
          by_cases hf : f k
          · simp [hf, lookupUI, hp]
          · simp [hf]

/-! ### Lemmas about one iteration of the reconciliation loop -/

theorem updateChildUIsStep_nextId_le (st : UIState) (c : ClassEntry) :
    st.nextId ≤ (updateChildUIsStep st c).1.nextId := by
  unfold updateChildUIsStep
  cases hl : lookupUI st.childUIs c.1 with
  | none => exact Nat.le_succ _
  | some w =>
      by_cases hm : w.className ≠ c.2.1 ∨ w.classVersion ≠ c.2.2
      · simp only [if_pos hm]
        exact Nat.le_succ _
      · simp only [if_neg hm]
        exact Nat.le_refl _

theorem updateChildUIsStep_lookup_ne (st : UIState) (c : ClassEntry) (k : String)
    (h : k ≠ c.1) :
    lookupUI (updateChildUIsStep st c).1.childUIs k = lookupUI st.childUIs k := by
  unfold updateChildUIsStep
  cases hl : lookupUI st.childUIs c.1 with
  | none => exact lookupUI_setUI_ne _ _ _ _ h
  | some w =>
      by_cases hm : w.className ≠ c.2.1 ∨ w.classVersion ≠ c.2.2
      · simp only [if_pos hm]
        exact lookupUI_setUI_ne _ _ _ _ h
      · simp only [if_neg hm]

theorem updateChildUIsStep_lookup_self (st : UIState) (c : ClassEntry) :
    ∃ w, lookupUI (updateChildUIsStep st c).1.childUIs c.1 = some w ∧
      w.className = c.2.1 ∧ w.classVersion = c.2.2 := by
  unfold updateChildUIsStep
  cases hl : lookupUI st.childUIs c.1 with
  | none => exact ⟨_, lookupUI_setUI_self _ _ _, rfl, rfl⟩
  | some w =>
      by_cases hm : w.className ≠ c.2.1 ∨ w.classVersion ≠ c.2.2
      · simp only [if_pos hm]
        exact ⟨_, lookupUI_setUI_self _ _ _, rfl, rfl⟩
      · simp only [if_neg hm]
        push_neg at hm
        exact ⟨w, hl, hm.1, hm.2⟩

theorem updateChildUIsStep_no_op (st : UIState) (c : ClassEntry) (w : ChildUI)
    (hl : lookupUI st.childUIs c.1 = some w)
    (h1 : w.className = c.2.1) (h2 : w.classVersion = c.2.2) :
    updateChildUIsStep st c = (st, []) := by
  unfold updateChildUIsStep
  rw [hl]
  simp [h1, h2]

theorem updateChildUIsStep_mismatch (st : UIState) (c : ClassEntry) (w : ChildUI)
    (hl : lookupUI st.childUIs c.1 = some w)
    (hm : w.className ≠ c.2.1 ∨ w.classVersion ≠ c.2.2) :
    updateChildUIsStep st c =
      (⟨setUI st.childUIs c.1 ⟨st.nextId, c.2.1, c.2.2⟩, st.nextId + 1⟩,
        [UIEvent.deleteUI c.1 w.id, UIEvent.createUI c.1 st.nextId]) := by
  unfold updateChildUIsStep
  rw [hl]
  simp [hm]

theorem updateChildUIsStep_lookup_cases (st : UIState) (c : ClassEntry) (k : String)
    (v : ChildUI) (h : lookupUI (updateChildUIsStep st c).1.childUIs k = some v) :
    lookupUI st.childUIs k = some v ∨ st.nextId ≤ v.id := by
  by_cases hk : k = c.1
  · subst hk
    unfold updateChildUIsStep at h
    cases hl : lookupUI st.childUIs c.1 with
    | none =>
        rw [hl, lookupUI_setUI_self] at h
        right
        cases h
        exact Nat.le_refl _
    | some w =>
        rw [hl] at h
        dsimp only at h
        by_cases hm : w.className ≠ c.2.1 ∨ w.classVersion ≠ c.2.2
        · rw [if_pos hm] at h
          rw [lookupUI_setUI_self] at h
          cases h
          right
          exact Nat.le_refl _
        · rw [if_neg hm] at h
          left
          exact hl.symm.trans h
  · rw [updateChildUIsStep_lookup_ne st c k hk] at h
    exact Or.inl h

theorem updateChildUIsStep_no_commit (st : UIState) (c : ClassEntry)
    (cls : List ClassEntry) : UIEvent.commit cls ∉ (updateChildUIsStep st c).2 := by
  unfold updateChildUIsStep
  cases hl : lookupUI st.childUIs c.1 with
  | none => simp
  | some w =>
      by_cases hm : w.className ≠ c.2.1 ∨ w.classVersion ≠ c.2.2
      · simp [hm]
      · simp [hm]

theorem updateChildUIsStep_no_updateUI (st : UIState) (c : ClassEntry)
    (cls : List ClassEntry) : UIEvent.updateUI cls ∉ (updateChildUIsStep st c).2 := by
  unfold updateChildUIsStep
  cases hl : lookupUI st.childUIs c.1 with
  | none => simp
  | some w =>
      by_cases hm : w.className ≠ c.2.1 ∨ w.classVersion ≠ c.2.2
      · simp [hm]
      · simp [hm]

/-! ### Lemmas about the whole reconciliation loop -/

theorem updateChildUIsLoop_append (st : UIState) (l₁ l₂ : List ClassEntry) :
    updateChildUIsLoop st (l₁ ++ l₂) =
      ((updateChildUIsLoop (updateChildUIsLoop st l₁).1 l₂).1,
        (updateChildUIsLoop st l₁).2 ++ (updateChildUIsLoop (updateChildUIsLoop st l₁).1 l₂).2) := by
  induction l₁ generalizing st with
  | nil => simp [updateChildUIsLoop]
  | cons c rest ih =>
      simp only [List.cons_append, updateChildUIsLoop, List.append_eq]
      rw [ih]
      simp [List.append_assoc]

theorem updateChildUIsLoop_nextId_le (st : UIState) (cs : List ClassEntry) :
    st.nextId ≤ (updateChildUIsLoop st cs).1.nextId := by
  induction cs generalizing st with
  | nil => exact Nat.le_refl _
  | cons c rest ih =>
      simp only [updateChildUIsLoop]
      exact Nat.le_trans (updateChildUIsStep_nextId_le st c) (ih _)

theorem updateChildUIsLoop_lookup_of_not_mem (st : UIState) (cs : List ClassEntry)
    (k : String) (h : k ∉ cs.map ClassEntry.parameterName) :
    lookupUI (updateChildUIsLoop st cs).1.childUIs k = lookupUI st.childUIs k := by
  induction cs generalizing st with
  | nil => rfl
  | cons c rest ih =>
      simp only [List.map_cons, List.mem_cons, not_or] at h
      simp only [updateChildUIsLoop]
      rw [ih _ h.2, updateChildUIsStep_lookup_ne st c k h.1]

theorem updateChildUIsLoop_lookup_cases (st : UIState) (cs : List ClassEntry)
    (k : String) (v : ChildUI)
    (h : lookupUI (updateChildUIsLoop st cs).1.childUIs k = some v) :
    lookupUI st.childUIs k = some v ∨ st.nextId ≤ v.id := by
  induction cs generalizing st with
  | nil => exact Or.inl h
  | cons c rest ih =>
      simp only [updateChildUIsLoop] at h
      rcases ih _ h with h2 | h2
      · exact updateChildUIsStep_lookup_cases st c k v h2
      · exact Or.inr (Nat.le_trans (updateChildUIsStep_nextId_le st c) h2)

theorem updateChildUIsLoop_keys (st : UIState) (cs : List ClassEntry) (k : String) :
    (lookupUI (updateChildUIsLoop st cs).1.childUIs k).isSome ↔
      (lookupUI st.childUIs k).isSome ∨ k ∈ cs.map ClassEntry.parameterName := by
  induction cs generalizing st with
  | nil => simp [updateChildUIsLoop]
  | cons c rest ih =>
      simp only [updateChildUIsLoop]
      rw [ih]
      by_cases hk : k = c.1
      · subst hk
        obtain ⟨w, hw, _, _⟩ := updateChildUIsStep_lookup_self st c
        simp [hw]
      · rw [updateChildUIsStep_lookup_ne st c k hk]
        simp only [List.map_cons, List.mem_cons]
        constructor
        · rintro (hs | hm)
          · exact Or.inl hs
          · exact Or.inr (Or.inr hm)
        · rintro (hs | rfl | hm)
          · exact Or.inl hs
          · exact absurd rfl hk
          · exact Or.inr hm

/-- The registry is synchronized with a class-entry list: every entry has a
widget carrying its class identity. -/
def Synced (st : UIState) (classes : List ClassEntry) : Prop :=
  ∀ c ∈ classes, ∃ w, lookupUI st.childUIs c.1 = some w ∧
    w.className = c.2.1 ∧ w.classVersion = c.2.2

theorem updateChildUIsLoop_synced (st : UIState) (cs : List ClassEntry)
    (hnd : (cs.map ClassEntry.parameterName).Nodup) :
    Synced (updateChildUIsLoop st cs).1 cs := by
  induction cs generalizing st with
  | nil =>
      intro c hc
      simp at hc
  | cons c rest ih =>
      rw [List.map_cons, List.nodup_cons] at hnd
      intro e he
      rcases List.mem_cons.mp he with rfl | he2
      · simp only [updateChildUIsLoop]
        rw [updateChildUIsLoop_lookup_of_not_mem _ _ _ hnd.1]
        exact updateChildUIsStep_lookup_self st e
      · exact ih _ hnd.2 e he2

theorem updateChildUIsLoop_of_synced (st : UIState) (cs : List ClassEntry)
    (h : Synced st cs) : updateChildUIsLoop st cs = (st, []) := by
  induction cs with
  | nil => rfl
  | cons c rest ih =>
      obtain ⟨w, hw, h1, h2⟩ := h c (List.mem_cons_self _ _)
      have hstep := updateChildUIsStep_no_op st c w hw h1 h2
      simp only [updateChildUIsLoop, hstep]
      rw [ih (fun e he => h e (List.mem_cons_of_mem _ he))]
      rfl

theorem updateChildUIsLoop_no_commit (st : UIState) (cs : List ClassEntry)
    (cls : List ClassEntry) : UIEvent.commit cls ∉ (updateChildUIsLoop st cs).2 := by
  induction cs generalizing st with
  | nil => simp [updateChildUIsLoop]
  | cons c rest ih =>
      simp only [updateChildUIsLoop, List.mem_append]
      rintro (h | h)
      · exact updateChildUIsStep_no_commit st c cls h
      · exact ih _ h

theorem updateChildUIsLoop_no_updateUI (st : UIState) (cs : List ClassEntry)
    (cls : List ClassEntry) : UIEvent.updateUI cls ∉ (updateChildUIsLoop st cs).2 := by
  induction cs generalizing st with
  | nil => simp [updateChildUIsLoop]
  | cons c rest ih =>
      simp only [updateChildUIsLoop, List.mem_append]
      rintro (h | h)
      · exact updateChildUIsStep_no_updateUI st c cls h
      · exact ih _ h

/-! ### Lemmas about `__updateChildUIs` as a whole -/

theorem updateChildUIs_eq (cs : List ClassEntry) (s : Bool) (st : UIState) :
    updateChildUIs cs s st =
      ((updateChildUIsLoop
          ⟨st.childUIs.filter (keepChild (cs.map ClassEntry.parameterName) s), st.nextId⟩ cs).1,
        UIEvent.updateUI cs ::
          (((st.childUIs.filter
                (fun p => !(keepChild (cs.map ClassEntry.parameterName) s p))).map
              (fun p => UIEvent.deleteUI p.1 p.2.id)) ++
            (updateChildUIsLoop
              ⟨st.childUIs.filter (keepChild (cs.map ClassEntry.parameterName) s),
                st.nextId⟩ cs).2)) := rfl

theorem lookupUI_keepChild_filter (ns : List String) (s : Bool)
    (l : List (String × ChildUI)) (k : String) :
    lookupUI (l.filter (keepChild ns s)) k =
      if decide (k ∈ ns) && !s then lookupUI l k else none :=
  lookupUI_filter_key (fun k2 => decide (k2 ∈ ns) && !s) l k

/-- After any completed run of `__updateChildUIs`, a parameter name owns a
child widget exactly when it occurs in the class-entry list that was passed
in. -/
theorem updateChildUIs_keys_exact (cs : List ClassEntry) (s : Bool) (st : UIState)
    (k : String) :
    (lookupUI (updateChildUIs cs s st).1.childUIs k).isSome ↔
      k ∈ cs.map ClassEntry.parameterName := by
  rw [updateChildUIs_eq]
  dsimp only
  rw [updateChildUIsLoop_keys, lookupUI_keepChild_filter]
  by_cases hm : k ∈ cs.map ClassEntry.parameterName
  · by_cases hs : s
    · simp [hm, hs]
    · simp [hm, hs]
  · simp [hm]

theorem updateChildUIs_synced (cs : List ClassEntry) (s : Bool) (st : UIState)
    (hnd : (cs.map ClassEntry.parameterName).Nodup) :
    Synced (updateChildUIs cs s st).1 cs := by
  rw [updateChildUIs_eq]
  exact updateChildUIsLoop_synced _ _ hnd

theorem updateChildUIs_no_commit (cs : List ClassEntry) (s : Bool) (st : UIState)
    (cls : List ClassEntry) : UIEvent.commit cls ∉ (updateChildUIs cs s st).2 := by
  rw [updateChildUIs_eq]
  simp only [List.mem_cons, List.mem_append, List.mem_map]
  rintro (h | ⟨p, _, h⟩ | h)
  · exact UIEvent.noConfusion h
  · exact UIEvent.noConfusion h
  · exact updateChildUIsLoop_no_commit _ _ _ h

theorem updateChildUIs_events_shape (cs : List ClassEntry) (s : Bool) (st : UIState) :
    ∃ tail, (updateChildUIs cs s st).2 = UIEvent.updateUI cs :: tail :=
  ⟨_, rfl⟩

/-- Phase one of `__updateChildUIs` emits a deleteUI event for every widget
whose parameter name is missing from the list (or any widget at all when
startFromScratch is set). -/
theorem updateChildUIs_delete_event (cs : List ClassEntry) (s : Bool) (st : UIState)
    (k : String) (w : ChildUI) (hw : lookupUI st.childUIs k = some w)
    (hk : k ∉ cs.map ClassEntry.parameterName ∨ s = true) :
    UIEvent.deleteUI k w.id ∈ (updateChildUIs cs s st).2 := by
  rw [updateChildUIs_eq]
  refine List.mem_cons_of_mem _ (List.mem_append.mpr (Or.inl ?_))
  refine List.mem_map.mpr ⟨(k, w), List.mem_filter.mpr ⟨lookupUI_mem _ _ _ hw, ?_⟩, rfl⟩
  rcases hk with hk | hk
  · simp [keepChild, hk]
  · simp [keepChild, hk]

/-! ### C1: widget update strictly precedes the host commit -/

/-- In an event trace, every commit is preceded by an earlier call of
`__updateChildUIs`. -/
def updatePrecedesCommit (evs : List UIEvent) : Prop :=
  ∀ i cls, evs.get? i = some (UIEvent.commit cls) →
    ∃ j cls₂, j < i ∧ evs.get? j = some (UIEvent.updateUI cls₂)

theorem updatePrecedesCommit_of_head (cls₀ : List ClassEntry) (tail : List UIEvent) :
    updatePrecedesCommit (UIEvent.updateUI cls₀ :: tail) := by
  intro i cls h
  cases i with
  | zero =>
      simp only [List.get?] at h
      exact absurd h (by simp)
  | succ j =>
      exact ⟨0, cls₀, Nat.succ_pos _, rfl⟩

theorem removeClass_events_shape (parameterName : String) (current : List ClassEntry)
    (st : UIState) :
    ∃ tail, (removeClass parameterName current st).events =
      UIEvent.updateUI (current.filter fun c => decide (c.1 ≠ parameterName)) :: tail := by
  obtain ⟨tail, ht⟩ :=
    updateChildUIs_events_shape (current.filter fun c => decide (c.1 ≠ parameterName)) false st
  exact ⟨tail ++ [UIEvent.commit (current.filter fun c => decide (c.1 ≠ parameterName))],
    by simp only [removeClass, ht, List.cons_append]⟩

theorem setClass_state (parameterName className : String) (classVersion : Nat)
    (current : List ClassEntry) (st : UIState) :
    (setClass parameterName className classVersion current st).state =
      (updateChildUIs (current.filter fun c => decide (c.1 ≠ parameterName)) false st).1 := by
  unfold setClass
  by_cases h1 : parameterName ≠ ""
  · simp only [if_pos h1]
    cases hf : current.findIdx? (fun c => decide (c.1 = parameterName)) with
    | none => simp [hf]
    | some i => simp [hf]
  · simp only [if_neg h1]

theorem setClass_events_shape (parameterName className : String) (classVersion : Nat)
    (current : List ClassEntry) (st : UIState) :
    ∃ tail, (setClass parameterName className classVersion current st).events =
      UIEvent.updateUI (current.filter fun c => decide (c.1 ≠ parameterName)) :: tail := by
  obtain ⟨tail, ht⟩ :=
    updateChildUIs_events_shape (current.filter fun c => decide (c.1 ≠ parameterName)) false st
  unfold setClass
  by_cases h1 : parameterName ≠ ""
  · simp only [if_pos h1]
    cases hf : current.findIdx? (fun c => decide (c.1 = parameterName)) with
    | none =>
        refine ⟨tail, ?_⟩
        simp only [hf]
        exact ht
    | some i =>
        refine ⟨tail ++ [UIEvent.commit (current.set i (parameterName, className, classVersion))], ?_⟩
        simp only [hf]
        rw [ht]
        simp [List.cons_append]
  · simp only [if_neg h1]
    refine ⟨tail ++ [UIEvent.commit (current ++
      [(genParameterName (current.map ClassEntry.parameterName) current.length,
        className, classVersion)])], ?_⟩
    rw [ht]
    simp [List.cons_append]

theorem mem_names_filter_ne (current : List ClassEntry) (k parameterName : String) :
    k ∈ (current.filter fun c => decide (c.1 ≠ parameterName)).map ClassEntry.parameterName ↔
      (k ∈ current.map ClassEntry.parameterName ∧ k ≠ parameterName) := by
  simp only [List.mem_map, List.mem_filter, decide_eq_true_eq]
  constructor
  · rintro ⟨c, ⟨hc, hne⟩, rfl⟩
    exact ⟨⟨c, hc, rfl⟩, hne⟩
  · rintro ⟨⟨c, hc, rfl⟩, hne⟩
    exact ⟨c, ⟨hc, hne⟩, rfl⟩

/-- C1: in both `_removeClass` and `_setClass`, the child-widget update pass
(`__updateChildUIs`) runs strictly before any commit through
fnPH.setClassVectorParameterClasses appears in the trace. -/
theorem mutationUpdateBeforeCommit (parameterName className : String) (classVersion : Nat)
    (currentClasses : List ClassEntry) (st : UIState) :
    updatePrecedesCommit (removeClass parameterName currentClasses st).events ∧
    updatePrecedesCommit (setClass parameterName className classVersion currentClasses st).events := by
  constructor
  · obtain ⟨tail, ht⟩ := removeClass_events_shape parameterName currentClasses st
    rw [ht]
    exact updatePrecedesCommit_of_head _ _
  · obtain ⟨tail, ht⟩ := setClass_events_shape parameterName className classVersion currentClasses st
    rw [ht]
    exact updatePrecedesCommit_of_head _ _

/-! ### C2: the registry key set equals the set of entry names -/

/-- C2: after every completed run of `__updateChildUIs` over a class-entry
list, the key set of the childUIs registry is exactly the set of parameter
names occurring in the list: every listed name has a widget, and no widget
exists for a name not in the list. -/
theorem updateChildUIs_registry_matches_entries (cs : List ClassEntry) (s : Bool)
    (st : UIState) (k : String) :
    (lookupUI (updateChildUIs cs s st).1.childUIs k).isSome ↔
      k ∈ cs.map ClassEntry.parameterName :=
  updateChildUIs_keys_exact cs s st k

/-! ### C5: reconciliation is idempotent -/

/-- C5: invoking `__updateChildUIs` a second time with an unchanged class
entry list (startFromScratch false) deletes no child widget and leaves the
registry unchanged: the run performs no event beyond the update call itself,
and returns the same state.  Parameter names are pairwise distinct, being
keys of the underlying compound parameter. -/
theorem updateChildUIs_idempotent (cs : List ClassEntry) (st : UIState)
    (hnd : (cs.map ClassEntry.parameterName).Nodup) :
    updateChildUIs cs false (updateChildUIs cs false st).1 =
      ((updateChildUIs cs false st).1, [UIEvent.updateUI cs]) := by
  set st1 := (updateChildUIs cs false st).1 with hst1
  have hmem : ∀ p ∈ st1.childUIs, p.1 ∈ cs.map ClassEntry.parameterName := by
    intro p hp
    have h1 : p.1 ∈ st1.childUIs.map Prod.fst := List.mem_map.mpr ⟨p, hp, rfl⟩
    have h2 : (lookupUI st1.childUIs p.1).isSome := (lookupUI_isSome_iff _ _).mpr h1
    exact (updateChildUIs_keys_exact cs false st p.1).mp h2
  have hkeep : ∀ p ∈ st1.childUIs, keepChild (cs.map ClassEntry.parameterName) false p = true := by
    intro p hp
    simp [keepChild, hmem p hp]
  have hfilter : st1.childUIs.filter (keepChild (cs.map ClassEntry.parameterName) false) =
      st1.childUIs := List.filter_eq_self.mpr hkeep
  have hdel : st1.childUIs.filter
      (fun p => !(keepChild (cs.map ClassEntry.parameterName) false p)) = [] :=
    List.filter_eq_nil_iff.mpr (by
      intro p hp
      simp [hkeep p hp])
  have hsync : Synced st1 cs := updateChildUIs_synced cs false st hnd
  have hloop : updateChildUIsLoop st1 cs = (st1, []) :=
    updateChildUIsLoop_of_synced st1 cs hsync
  rw [updateChildUIs_eq, hfilter, hdel]
  have heta : (⟨st1.childUIs, st1.nextId⟩ : UIState) = st1 := rfl
  rw [heta, hloop]
  simp

/-! ### C4: what the pre-commit update pass leaves behind -/

/-- C4 counterexample: in `_setClass` the pre-commit update pass does not
match the committed target list.  Replacing the single entry p0 commits
[(p0, B, 2)], whose name set is {p0}, while the widget registry at commit
time holds no widget at all for p0. -/
theorem preUpdateMismatchOnSetClass :
    UIEvent.commit [("p0", "B", 2)] ∈
        (setClass "p0" "B" 2 [("p0", "A", 1)] ⟨[("p0", ⟨0, "A", 1⟩)], 1⟩).events ∧
      "p0" ∈ ([("p0", "B", 2)] : List ClassEntry).map ClassEntry.parameterName ∧
      lookupUI (setClass "p0" "B" 2 [("p0", "A", 1)] ⟨[("p0", ⟨0, "A", 1⟩)], 1⟩).state.childUIs
          "p0" = none := by
  decide

/-- C4 amended: the widget list left by the pre-commit update pass matches
the committed target list for `_removeClass`; for `_setClass` (replace or
add) it instead matches the current list with the mutated parameter name
removed — the mutated entry deliberately has no widget until the
post-commit callback rebuilds it. -/
theorem preUpdateTracksCommit (parameterName className : String) (classVersion : Nat)
    (current : List ClassEntry) (st : UIState) :
    (∀ k, (lookupUI (removeClass parameterName current st).state.childUIs k).isSome ↔
        k ∈ (current.filter fun c => decide (c.1 ≠ parameterName)).map ClassEntry.parameterName) ∧
    (∀ k, (lookupUI (setClass parameterName className classVersion current st).state.childUIs k).isSome ↔
        (k ∈ current.map ClassEntry.parameterName ∧ k ≠ parameterName)) := by
  constructor
  · intro k
    exact updateChildUIs_keys_exact (current.filter fun c => decide (c.1 ≠ parameterName)) false st k
  · intro k
    rw [setClass_state]
    rw [updateChildUIs_keys_exact]
    exact mem_names_filter_ne current k parameterName

/-! ### C3: reuse exactly when name and class identity persist -/

theorem nodup_split_names (pre post : List ClassEntry) (e : ClassEntry)
    (hnd : (((pre ++ e :: post).map ClassEntry.parameterName)).Nodup) :
    e.1 ∉ pre.map ClassEntry.parameterName ∧ e.1 ∉ post.map ClassEntry.parameterName := by
  rw [List.map_append, List.map_cons] at hnd
  have h2 := List.nodup_middle.mp hnd
  rw [List.nodup_cons, List.mem_append] at h2
  push_neg at h2
  exact h2.1

theorem updateChildUIsLoop_reuse (stL : UIState) (pre post : List ClassEntry)
    (e : ClassEntry) (w : ChildUI)
    (hpre : e.1 ∉ pre.map ClassEntry.parameterName)
    (hpost : e.1 ∉ post.map ClassEntry.parameterName)
    (hwL : lookupUI stL.childUIs e.1 = some w)
    (h1 : w.className = e.2.1) (h2 : w.classVersion = e.2.2) :
    lookupUI (updateChildUIsLoop stL (pre ++ e :: post)).1.childUIs e.1 = some w := by
  rw [updateChildUIsLoop_append]
  have hlpre : lookupUI (updateChildUIsLoop stL pre).1.childUIs e.1 = some w := by
    rw [updateChildUIsLoop_lookup_of_not_mem _ _ _ hpre]
    exact hwL
  have hstep := updateChildUIsStep_no_op (updateChildUIsLoop stL pre).1 e w hlpre h1 h2
  simp only [updateChildUIsLoop, hstep]
  rw [updateChildUIsLoop_lookup_of_not_mem _ _ _ hpost]
  exact hlpre

theorem updateChildUIsLoop_rebuild (stL : UIState) (pre post : List ClassEntry)
    (e : ClassEntry) (w : ChildUI)
    (hpre : e.1 ∉ pre.map ClassEntry.parameterName)
    (hpost : e.1 ∉ post.map ClassEntry.parameterName)
    (hwL : lookupUI stL.childUIs e.1 = some w)
    (hm : w.className ≠ e.2.1 ∨ w.classVersion ≠ e.2.2) :
    ∃ w₂, lookupUI (updateChildUIsLoop stL (pre ++ e :: post)).1.childUIs e.1 = some w₂ ∧
      stL.nextId ≤ w₂.id ∧
      UIEvent.deleteUI e.1 w.id ∈ (updateChildUIsLoop stL (pre ++ e :: post)).2 := by
  rw [updateChildUIsLoop_append]
  have hlpre : lookupUI (updateChildUIsLoop stL pre).1.childUIs e.1 = some w := by
    rw [updateChildUIsLoop_lookup_of_not_mem _ _ _ hpre]
    exact hwL
  have hnext : stL.nextId ≤ (updateChildUIsLoop stL pre).1.nextId :=
    updateChildUIsLoop_nextId_le _ _
  have hstep := updateChildUIsStep_mismatch (updateChildUIsLoop stL pre).1 e w hlpre hm
  simp only [updateChildUIsLoop, hstep]
  refine ⟨⟨(updateChildUIsLoop stL pre).1.nextId, e.2.1, e.2.2⟩, ?_, hnext, ?_⟩
  · rw [updateChildUIsLoop_lookup_of_not_mem _ _ _ hpost]
    exact lookupUI_setUI_self _ _ _
  · simp

/-- C3: an existing child widget survives reconciliation in place exactly
when startFromScratch is unset and its parameter name still occurs in the
class-entry list with the same class name and class version; in every other
case the widget is deleted, and when the name is still listed a fresh
widget (a different widget object) is built for it.  Parameter names in the
entry list are distinct, and registry ids are below the fresh-id counter. -/
theorem updateChildUIs_reuse_iff (cs : List ClassEntry) (s : Bool) (st : UIState)
    (name : String) (w : ChildUI)
    (hnd : (cs.map ClassEntry.parameterName).Nodup)
    (hid : ∀ p ∈ st.childUIs, p.2.id < st.nextId)
    (hw : lookupUI st.childUIs name = some w) :
    (lookupUI (updateChildUIs cs s st).1.childUIs name = some w ↔
      (s = false ∧ (name, w.className, w.classVersion) ∈ cs)) ∧
    (¬ (s = false ∧ (name, w.className, w.classVersion) ∈ cs) →
      UIEvent.deleteUI name w.id ∈ (updateChildUIs cs s st).2 ∧
      (name ∈ cs.map ClassEntry.parameterName →
        ∃ w₂, lookupUI (updateChildUIs cs s st).1.childUIs name = some w₂ ∧ w₂.id ≠ w.id)) := by
  have hwlt : w.id < st.nextId := hid (name, w) (lookupUI_mem _ _ _ hw)
  by_cases hcond : s = false ∧ (name, w.className, w.classVersion) ∈ cs
  · obtain ⟨hs, htriple⟩ := hcond
    subst hs
    have hname : name ∈ cs.map ClassEntry.parameterName :=
      List.mem_map.mpr ⟨_, htriple, rfl⟩
    obtain ⟨pre, post, hsplit⟩ := List.append_of_mem htriple
    have hnd2 := hnd
    rw [hsplit] at hnd2
    obtain ⟨hpre, hpost⟩ := nodup_split_names pre post _ hnd2
    have hkept : lookupUI
        (st.childUIs.filter (keepChild (cs.map ClassEntry.parameterName) false)) name =
        some w := by
      rw [lookupUI_keepChild_filter]
      simp [hname, hw]
    rw [hsplit] at hkept
    have hreuse : lookupUI (updateChildUIs cs false st).1.childUIs name = some w := by
      rw [updateChildUIs_eq]
      dsimp only
      rw [hsplit]
      exact updateChildUIsLoop_reuse _ pre post _ w hpre hpost hkept rfl rfl
    exact ⟨iff_of_true hreuse ⟨rfl, htriple⟩, fun hn => absurd ⟨rfl, htriple⟩ hn⟩
  · cases s with
    | true =>
        have hnone : ∀ v, lookupUI (updateChildUIs cs true st).1.childUIs name = some v →
            st.nextId ≤ v.id := by
          intro v hv
          rw [updateChildUIs_eq] at hv
          dsimp only at hv
          rcases updateChildUIsLoop_lookup_cases _ _ _ _ hv with h2 | h2
          · rw [lookupUI_keepChild_filter] at h2
            simp at h2
          · exact h2
        have hfalse : ¬ (lookupUI (updateChildUIs cs true st).1.childUIs name = some w) :=
          fun heq => absurd (hnone w heq) (Nat.not_le.mpr hwlt)
        have hdel : UIEvent.deleteUI name w.id ∈ (updateChildUIs cs true st).2 :=
          updateChildUIs_delete_event cs true st name w hw (Or.inr rfl)
        have hrebuild : name ∈ cs.map ClassEntry.parameterName →
            ∃ w₂, lookupUI (updateChildUIs cs true st).1.childUIs name = some w₂ ∧
              w₂.id ≠ w.id := by
          intro hname
          have hsome : (lookupUI (updateChildUIs cs true st).1.childUIs name).isSome :=
            (updateChildUIs_keys_exact cs true st name).mpr hname
          obtain ⟨w₂, hw₂⟩ := Option.isSome_iff_exists.mp hsome
          refine ⟨w₂, hw₂, fun hidq => ?_⟩
          have := hnone w₂ hw₂
          rw [hidq] at this
          exact absurd this (Nat.not_le.mpr hwlt)
        exact ⟨iff_of_false hfalse hcond, fun _ => ⟨hdel, hrebuild⟩⟩
    | false =>
        have htriple_not : (name, w.className, w.classVersion) ∉ cs :=
          fun hmem => hcond ⟨rfl, hmem⟩
        by_cases hname : name ∈ cs.map ClassEntry.parameterName
        · obtain ⟨e, he, hpn⟩ := List.mem_map.mp hname
          subst hpn
          have hm : w.className ≠ e.2.1 ∨ w.classVersion ≠ e.2.2 := by
            by_contra hc
            push_neg at hc
            apply htriple_not
            have heta : (ClassEntry.parameterName e, w.className, w.classVersion) = e := by
              rw [hc.1, hc.2]
            rw [heta]
            exact he
          obtain ⟨pre, post, hsplit⟩ := List.append_of_mem he
          have hnd2 := hnd
          rw [hsplit] at hnd2
          obtain ⟨hpre, hpost⟩ := nodup_split_names pre post _ hnd2
          have hkept : lookupUI
              (st.childUIs.filter (keepChild (cs.map ClassEntry.parameterName) false))
              (ClassEntry.parameterName e) = some w := by
            rw [lookupUI_keepChild_filter]
            simp [hname, hw]
          rw [hsplit] at hkept
          obtain ⟨w₂, hlook, hge, hdelev⟩ :=
            updateChildUIsLoop_rebuild
              ⟨st.childUIs.filter
                (keepChild ((pre ++ e :: post).map ClassEntry.parameterName) false),
                st.nextId⟩ pre post e w hpre hpost hkept hm
          have hludef : lookupUI (updateChildUIs cs false st).1.childUIs
              (ClassEntry.parameterName e) = some w₂ := by
            rw [updateChildUIs_eq]
            dsimp only
            rw [hsplit]
            exact hlook
          have hw2ne : w₂.id ≠ w.id := by
            intro heq2
            rw [heq2] at hge
            exact absurd hge (Nat.not_le.mpr hwlt)
          have hfalse : ¬ (lookupUI (updateChildUIs cs false st).1.childUIs
              (ClassEntry.parameterName e) = some w) := by
            intro heq
            have hww : w₂ = w := by
              have := hludef.symm.trans heq
              exact Option.some.inj this
            rw [hww] at hw2ne
            exact hw2ne rfl
          have hdel : UIEvent.deleteUI (ClassEntry.parameterName e) w.id ∈
              (updateChildUIs cs false st).2 := by
            rw [updateChildUIs_eq]
            dsimp only
            rw [hsplit]
            exact List.mem_cons_of_mem _ (List.mem_append.mpr (Or.inr hdelev))
          exact ⟨iff_of_false hfalse hcond, fun _ => ⟨hdel, fun _ => ⟨w₂, hludef, hw2ne⟩⟩⟩
        · have hnotis : ¬ (lookupUI (updateChildUIs cs false st).1.childUIs name).isSome := by
            rw [updateChildUIs_keys_exact]
            exact hname
          have hfalse : ¬ (lookupUI (updateChildUIs cs false st).1.childUIs name = some w) :=
            fun heq => hnotis (by rw [heq]; rfl)
          have hdel := updateChildUIs_delete_event cs false st name w hw (Or.inl hname)
          exact ⟨iff_of_false hfalse hcond, fun _ => ⟨hdel, fun hn => absurd hn hname⟩⟩

/-! ### C6: reordering commits a permutation -/

/-- C6: for any in-range oldIndex (out-of-range raises IndexError in
python) and any newIndex, `__moveLayer` commits a class list that is a
permutation of the previous one: the multiset of
(parameterName, className, classVersion) entries is preserved and only the
order changes.  The move menu only ever passes newIndex values
0, oldIndex-1, oldIndex+1 and len-1, all covered here. -/
theorem moveLayer_commits_permutation (oldIndex newIndex : Nat)
    (classes : List ClassEntry) (h : oldIndex < classes.length) :
    ∃ moved, moveLayer oldIndex newIndex classes = some moved ∧ moved.Perm classes := by
  have hget : classes.get? oldIndex = some classes[oldIndex] := by
    rw [List.get?_eq_getElem?]
    exact List.getElem?_eq_getElem h
  unfold moveLayer
  rw [hget]
  refine ⟨_, rfl, ?_⟩
  have h1 : ((classes.eraseIdx oldIndex).take newIndex ++ [classes[oldIndex]] ++
      (classes.eraseIdx oldIndex).drop newIndex).Perm
      (classes[oldIndex] :: classes.eraseIdx oldIndex) := by
    have hmid := @List.perm_middle _ classes[oldIndex]
      ((classes.eraseIdx oldIndex).take newIndex)
      ((classes.eraseIdx oldIndex).drop newIndex)
    rw [List.take_append_drop] at hmid
    simpa [List.append_assoc] using hmid
  have hc : classes = classes.take oldIndex ++ classes[oldIndex] :: classes.drop (oldIndex + 1) := by
    conv_lhs => rw [← List.take_append_drop oldIndex classes]
    rw [List.drop_eq_getElem_cons h]
  have h2 : (classes[oldIndex] :: classes.eraseIdx oldIndex).Perm classes := by
    rw [List.eraseIdx_eq_take_drop_succ]
    refine List.Perm.trans List.perm_middle.symm ?_
    rw [← hc]
  exact h1.trans h2

/-! ### C7: generated parameter names -/

theorem digitChar_inj_lt : ∀ a, a < 10 → ∀ b, b < 10 →
    Nat.digitChar a = Nat.digitChar b → a = b := by
  decide

theorem asString_inj (l₁ l₂ : List Char) (h : l₁.asString = l₂.asString) : l₁ = l₂ := by
  have hd := congrArg String.data h
  simpa [List.asString] using hd

theorem map_digitChar_inj (l₁ : List Nat) : ∀ l₂ : List Nat,
    (∀ d ∈ l₁, d < 10) → (∀ d ∈ l₂, d < 10) →
    l₁.map Nat.digitChar = l₂.map Nat.digitChar → l₁ = l₂ := by
  induction l₁ with
  | nil =>
      intro l₂ _ _ h
      cases l₂ with
      | nil => rfl
      | cons b t₂ => simp at h
  | cons a t ih =>
      intro l₂ h₁ h₂ h
      cases l₂ with
      | nil => simp at h
      | cons b t₂ =>
          simp only [List.map_cons, List.cons.injEq] at h
          have hd : a = b :=
            digitChar_inj_lt a (h₁ a (List.mem_cons_self _ _))
              b (h₂ b (List.mem_cons_self _ _)) h.1
          have ht : t = t₂ :=
            ih t₂ (fun d hd2 => h₁ d (List.mem_cons_of_mem _ hd2))
              (fun d hd2 => h₂ d (List.mem_cons_of_mem _ hd2)) h.2
          rw [hd, ht]

theorem digits_bounded (n : Nat) : ∀ d ∈ (Nat.digits 10 n).reverse, d < 10 := by
  intro d hd
  exact Nat.digits_lt_base (by norm_num) (List.mem_reverse.mp hd)

theorem decimalRepr_ne_zero_of_pos (n : Nat) (hn : n ≠ 0) : decimalRepr n ≠ "0" := by
  intro h
  unfold decimalRepr at h
  rw [if_neg hn] at h
  have hd : (Nat.digits 10 n).reverse.map Nat.digitChar = ['0'] := by
    have := congrArg String.data h
    simpa [List.asString] using this
  have hlen : (Nat.digits 10 n).reverse.length = 1 := by
    have := congrArg List.length hd
    simpa using this
  obtain ⟨d, hdig⟩ : ∃ d, (Nat.digits 10 n).reverse = [d] := by
    cases hrev : (Nat.digits 10 n).reverse with
    | nil => rw [hrev] at hlen; simp at hlen
    | cons d t =>
        rw [hrev] at hlen
        simp at hlen
        exact ⟨d, by rw [hlen]⟩
  have hd0 : d = 0 := by
    rw [hdig] at hd
    simp only [List.map_cons, List.map_nil, List.cons.injEq] at hd
    have hdlt : d < 10 := by
      refine digits_bounded n d ?_
      rw [hdig]
      exact List.mem_cons_self _ _
    exact digitChar_inj_lt d hdlt 0 (by norm_num) hd.1
  have hdigits : Nat.digits 10 n = [d] := by
    have := congrArg List.reverse hdig
    simpa using this
  have hne : Nat.digits 10 n ≠ [] := by
    rw [hdigits]
    simp
  have hlast := Nat.getLast_digit_ne_zero 10 hn
  rw [List.getLast_congr _ _ hdigits] at hlast
  · simp [hd0] at hlast
  · simp

theorem decimalRepr_inj : Function.Injective decimalRepr := by
  intro a b h
  by_cases ha : a = 0
  · by_cases hb : b = 0
    · rw [ha, hb]
    · exfalso
      have : decimalRepr b = "0" := by
        rw [← h, ha]
        rfl
      exact decimalRepr_ne_zero_of_pos b hb this
  · by_cases hb : b = 0
    · exfalso
      have : decimalRepr a = "0" := by
        rw [h, hb]
        rfl
      exact decimalRepr_ne_zero_of_pos a ha this
    · unfold decimalRepr at h
      rw [if_neg ha, if_neg hb] at h
      have hmap := asString_inj _ _ h
      have hrev := map_digitChar_inj _ _ (digits_bounded a) (digits_bounded b) hmap
      have hdig : Nat.digits 10 a = Nat.digits 10 b := List.reverse_injective hrev
      exact Nat.digits_inj_iff.mp hdig

theorem pName_inj : Function.Injective pName := by
  intro a b h
  unfold pName at h
  have hdat := congrArg String.data h
  rw [String.data_append, String.data_append] at hdat
  have hsuffix := List.append_cancel_left hdat
  exact decimalRepr_inj (String.ext hsuffix)

theorem pName_fresh_exists (parameterNames : List String) (n : Nat)
    (hlen : parameterNames.length ≤ n) :
    ∃ i, i ≤ n ∧ pName i ∉ parameterNames := by
  by_contra hc
  push_neg at hc
  have hsub : (Finset.range (n + 1)).image pName ⊆ parameterNames.toFinset := by
    intro x hx
    obtain ⟨i, hi, rfl⟩ := Finset.mem_image.mp hx
    rw [List.mem_toFinset]
    exact hc i (Nat.lt_succ_iff.mp (Finset.mem_range.mp hi))
  have hcard := Finset.card_le_card hsub
  rw [Finset.card_image_of_injOn (Set.injOn_of_injective pName_inj),
    Finset.card_range] at hcard
  have hfin := le_trans hcard (List.toFinset_card_le parameterNames)
  omega

theorem find?_range_min (p : Nat → Bool) (m i : Nat)
    (h : (List.range m).find? p = some i) :
    p i = true ∧ i < m ∧ ∀ j < i, p j = false := by
  induction m with
  | zero => simp [List.range_zero] at h
  | succ m ih =>
      rw [List.range_succ, List.find?_append] at h
      cases hf : (List.range m).find? p with
      | some i₀ =>
          rw [hf] at h
          simp only [Option.or_some] at h
          have hii : i₀ = i := by
            simpa using h
          subst hii
          obtain ⟨hp, hlt, hmin⟩ := ih hf
          exact ⟨hp, Nat.lt_succ_of_lt hlt, hmin⟩
      | none =>
          rw [hf] at h
          simp only [Option.none_or] at h
          have hall := List.find?_eq_none.mp hf
          have hpm : p m = true ∧ m = i := by
            rw [List.find?_cons] at h
            cases hpm : p m with
            | true =>
                rw [hpm] at h
                simp at h
                exact ⟨rfl, h⟩
            | false =>
                rw [hpm] at h
                simp at h
          obtain ⟨hp, rfl⟩ := hpm
          refine ⟨hp, Nat.lt_succ_self _, ?_⟩
          intro j hj
          have := hall j (List.mem_range.mpr hj)
          simpa using this

theorem genParameterName_spec (parameterNames : List String) (n : Nat)
    (hlen : parameterNames.length ≤ n) :
    ∃ i, i ≤ n ∧ genParameterName parameterNames n = pName i ∧
      pName i ∉ parameterNames ∧ ∀ j < i, pName j ∈ parameterNames := by
  obtain ⟨i0, hi0, hfree⟩ := pName_fresh_exists parameterNames n hlen
  cases hf : (List.range (n + 1)).find? (fun i => decide (pName i ∉ parameterNames)) with
  | none =>
      exfalso
      have := List.find?_eq_none.mp hf i0 (List.mem_range.mpr (Nat.lt_succ_of_le hi0))
      simp [hfree] at this
  | some i =>
      obtain ⟨hp, hlt, hmin⟩ := find?_range_min _ _ _ hf
      refine ⟨i, Nat.lt_succ_iff.mp hlt, ?_, ?_, ?_⟩
      · unfold genParameterName
        rw [hf]
      · simpa using hp
      · intro j hj
        have := hmin j hj
        simpa using this

theorem setClass_add_events (className : String) (classVersion : Nat)
    (current : List ClassEntry) (st : UIState) :
    (setClass "" className classVersion current st).events =
      (updateChildUIs (current.filter fun c => decide (c.1 ≠ "")) false st).2 ++
        [UIEvent.commit (current ++
          [(genParameterName (current.map ClassEntry.parameterName) current.length,
            className, classVersion)])] := by
  unfold setClass
  simp only [ne_eq, not_true_eq_false, if_false]

/-- C7: when `_setClass` is invoked with no parameter name, the generated
name is "p%d" with the smallest index in 0..len(classes) not already used,
it differs from every existing parameter name, the new entry is appended at
the end of the committed class list, and distinctness of the registry names
is preserved. -/
theorem setClass_add_generates_fresh_name (className : String) (classVersion : Nat)
    (current : List ClassEntry) (st : UIState) :
    (∃ i, i ≤ current.length ∧
      genParameterName (current.map ClassEntry.parameterName) current.length = pName i ∧
      pName i ∉ current.map ClassEntry.parameterName ∧
      ∀ j < i, pName j ∈ current.map ClassEntry.parameterName) ∧
    genParameterName (current.map ClassEntry.parameterName) current.length ∉
      current.map ClassEntry.parameterName ∧
    UIEvent.commit (current ++
      [(genParameterName (current.map ClassEntry.parameterName) current.length,
        className, classVersion)]) ∈ (setClass "" className classVersion current st).events ∧
    ((current.map ClassEntry.parameterName).Nodup →
      ((current ++
        [(genParameterName (current.map ClassEntry.parameterName) current.length,
          className, classVersion)]).map ClassEntry.parameterName).Nodup) := by
  have hlen : (current.map ClassEntry.parameterName).length ≤ current.length := by simp
  obtain ⟨i, hi, hgen, hfree, hmin⟩ := genParameterName_spec _ _ hlen
  have hgenfree : genParameterName (current.map ClassEntry.parameterName) current.length ∉
      current.map ClassEntry.parameterName := by
    rw [hgen]
    exact hfree
  refine ⟨⟨i, hi, hgen, hfree, hmin⟩, hgenfree, ?_, ?_⟩
  · rw [setClass_add_events]
    exact List.mem_append.mpr (Or.inr (List.mem_singleton.mpr rfl))
  · intro hnd
    rw [List.map_append]
    refine List.Nodup.append hnd (List.nodup_singleton _) ?_
    intro a ha hb
    have hab : a = genParameterName (current.map ClassEntry.parameterName) current.length := by
      simpa using hb
    rw [hab] at ha
    exact hgenfree ha

/-! ### C8: plug-lookup failures in the attribute-changed callback -/

/-- C8: in `__attributeChanged`, a failed plug lookup for a preset parameter
is skipped (its index is simply absent from the processed set) while every
other preset parameter is still processed: an index is updated exactly when
its parameter's plug lookup succeeds and matches the changed plug.  The
callback is a total function of its inputs, so no exception escapes it. -/
theorem attributeChanged_skips_failed_lookups (presetParameters : List Nat)
    (parameterPlug : Nat → Option Nat) (plug : Nat) (idx : Nat) :
    idx ∈ attributeChanged true presetParameters parameterPlug plug ↔
      ∃ param, presetParameters[idx]? = some param ∧ parameterPlug param = some plug := by
  unfold attributeChanged
  simp only [Bool.not_true, Bool.false_eq_true, if_false, List.mem_filterMap]
  constructor
  · rintro ⟨ip, hmem, hf⟩
    cases hp : parameterPlug ip.2 with
    | none =>
        rw [hp] at hf
        simp at hf
    | some myPlug =>
        rw [hp] at hf
        dsimp only at hf
        by_cases he : plug = myPlug
        · rw [if_pos he] at hf
          have hidx : ip.1 = idx := by
            simpa using hf
          refine ⟨ip.2, ?_, by rw [hp, he]⟩
          rw [← hidx]
          exact List.mem_enum_iff_getElem?.mp hmem
        · rw [if_neg he] at hf
          simp at hf
  · rintro ⟨param, hget, hp⟩
    refine ⟨(idx, param), List.mem_enum_iff_getElem?.mpr hget, ?_⟩
    rw [hp]
    simp

/-! ### C9: missing optional user-metadata keys default silently -/

/-- C9: a failed userData lookup (modelled as none) never raises and takes
the documented default: ["UI"]["collapsable"] defaults to True in the
constructor, ["UI"]["classNameFilter"] defaults to "*" in the class menu,
and the per-parameter header flags default to False; a successful lookup is
passed through. -/
theorem userData_lookup_defaults :
    initCollapsable none = true ∧
    classMenuNameFilter none = "*" ∧
    headerParameterFlag none = false ∧
    (∀ b, initCollapsable (some b) = b) ∧
    (∀ f, classMenuNameFilter (some f) = f) ∧
    (∀ b, headerParameterFlag (some b) = b) :=
  ⟨rfl, rfl, rfl, fun _ => rfl, fun _ => rfl, fun _ => rfl⟩

/-! ### C10: _setClass with an unknown non-empty name -/

/-- C10: calling `_setClass` with a non-empty parameterName absent from the
current class list raises RuntimeError and never reaches the host commit,
but the error path is not atomic for widget state: the pre-update has
already run, so no widget for that name remains, and a previously existing
widget for it has already received its deleteUI call. -/
theorem setClass_missing_name_raises (parameterName className : String)
    (classVersion : Nat) (current : List ClassEntry) (st : UIState)
    (hne : parameterName ≠ "")
    (habs : parameterName ∉ current.map ClassEntry.parameterName) :
    (setClass parameterName className classVersion current st).error =
      some ("Parameter \"" ++ parameterName ++ "\" not present") ∧
    (∀ cls, UIEvent.commit cls ∉
      (setClass parameterName className classVersion current st).events) ∧
    lookupUI (setClass parameterName className classVersion current st).state.childUIs
      parameterName = none ∧
    (∀ w, lookupUI st.childUIs parameterName = some w →
      UIEvent.deleteUI parameterName w.id ∈
        (setClass parameterName className classVersion current st).events) := by
  have hfind : current.findIdx? (fun c => decide (c.1 = parameterName)) = none := by
    rw [List.findIdx?_eq_none_iff]
    intro c hc
    simp only [decide_eq_false_iff_not]
    intro heq
    exact habs (List.mem_map.mpr ⟨c, hc, heq⟩)
  have hnotmem : parameterName ∉
      (current.filter fun c => decide (c.1 ≠ parameterName)).map ClassEntry.parameterName := by
    rw [mem_names_filter_ne]
    rintro ⟨_, hne2⟩
    exact hne2 rfl
  have hsetcl : setClass parameterName className classVersion current st =
      ⟨(updateChildUIs (current.filter fun c => decide (c.1 ≠ parameterName)) false st).1,
        (updateChildUIs (current.filter fun c => decide (c.1 ≠ parameterName)) false st).2,
        some ("Parameter \"" ++ parameterName ++ "\" not present")⟩ := by
    unfold setClass
    simp only [if_pos hne, hfind]
  rw [hsetcl]
  refine ⟨rfl, ?_, ?_, ?_⟩
  · intro cls
    exact updateChildUIs_no_commit _ _ _ _
  · have hnot : ¬ (lookupUI
        (updateChildUIs (current.filter fun c => decide (c.1 ≠ parameterName)) false st).1.childUIs
        parameterName).isSome := by
      rw [updateChildUIs_keys_exact]
      exact hnotmem
    exact Option.not_isSome_iff_eq_none.mp hnot
  · intro w hwl
    exact updateChildUIs_delete_event _ false st parameterName w hwl (Or.inl hnotmem)

/-! ### Concrete witnesses -/

theorem mutationUpdateBeforeCommit_witness :
    updatePrecedesCommit
      (removeClass "p0" [("p0", "A", 1)] ⟨[("p0", ⟨0, "A", 1⟩)], 1⟩).events ∧
    updatePrecedesCommit
      (setClass "p0" "B" 2 [("p0", "A", 1)] ⟨[("p0", ⟨0, "A", 1⟩)], 1⟩).events :=
  mutationUpdateBeforeCommit "p0" "B" 2 [("p0", "A", 1)] ⟨[("p0", ⟨0, "A", 1⟩)], 1⟩

theorem updateChildUIs_reuse_iff_witness :
    (["p0"] : List String).Nodup ∧
    lookupUI (updateChildUIs [("p0", "A", 1)] false
        ⟨[("p0", ⟨0, "A", 1⟩)], 1⟩).1.childUIs "p0" = some ⟨0, "A", 1⟩ :=
  ⟨by decide,
    ((updateChildUIs_reuse_iff [("p0", "A", 1)] false ⟨[("p0", ⟨0, "A", 1⟩)], 1⟩ "p0"
      ⟨0, "A", 1⟩ (by decide) (by decide) (by decide)).1).mpr ⟨rfl, by decide⟩⟩

theorem updateChildUIs_idempotent_witness :
    updateChildUIs [("p0", "A", 1)] false
        (updateChildUIs [("p0", "A", 1)] false ⟨[], 0⟩).1 =
      ((updateChildUIs [("p0", "A", 1)] false ⟨[], 0⟩).1,
        [UIEvent.updateUI [("p0", "A", 1)]]) :=
  updateChildUIs_idempotent [("p0", "A", 1)] ⟨[], 0⟩ (by decide)

theorem moveLayer_commits_permutation_witness :
    ∃ moved, moveLayer 0 1 [("p0", "A", 1), ("p1", "B", 2)] = some moved ∧
      moved.Perm [("p0", "A", 1), ("p1", "B", 2)] :=
  moveLayer_commits_permutation 0 1 [("p0", "A", 1), ("p1", "B", 2)] (by decide)

theorem setClass_add_generates_fresh_name_witness :
    ((([("p0", "A", 1)] : List ClassEntry) ++
      [(genParameterName (([("p0", "A", 1)] : List ClassEntry).map ClassEntry.parameterName)
          ([("p0", "A", 1)] : List ClassEntry).length,
        "X", 3)]).map ClassEntry.parameterName).Nodup :=
  (setClass_add_generates_fresh_name "X" 3 [("p0", "A", 1)] ⟨[], 0⟩).2.2.2 (by decide)

theorem setClass_missing_name_raises_witness :
    (setClass "q" "B" 2 [("p0", "A", 1)] ⟨[("q", ⟨0, "Z", 1⟩)], 1⟩).error =
        some ("Parameter \"" ++ "q" ++ "\" not present") ∧
      UIEvent.deleteUI "q" (ChildUI.mk 0 "Z" 1).id ∈
        (setClass "q" "B" 2 [("p0", "A", 1)] ⟨[("q", ⟨0, "Z", 1⟩)], 1⟩).events :=
  ⟨(setClass_missing_name_raises "q" "B" 2 [("p0", "A", 1)] ⟨[("q", ⟨0, "Z", 1⟩)], 1⟩
      (by decide) (by decide)).1,
    (setClass_missing_name_raises "q" "B" 2 [("p0", "A", 1)] ⟨[("q", ⟨0, "Z", 1⟩)], 1⟩
      (by decide) (by decide)).2.2.2 ⟨0, "Z", 1⟩ (by decide)⟩
